import Mathlib

/-!
Verification of the ReaSheet declarative spreadsheet-layout library.

The definitions below are a shallow embedding of `src/ReaSheet.js`:
the resolved style model and `Renderer._mergeStyles`, the `Dropdown`
constructor, the layout resolver (`HStack.render`, `VStack.render`,
`Cell.render` with the shared occupancy set), and the commit engine
(`Renderer._commit`), modelled as a pure function from the resolved-cell
list to the sequence of calls issued against the sheet surface.
-/

namespace ReaSheet

/-! ## Style model

A `Style` in the source is built by the `Style` constructor, which fills
every group (`font`, `alignment`, `wrap`, `rotation`) with defaults, so a
constructed style always has every sub-property present.  `StyleV` is the
post-constructor (fully resolved) form.  Border sides may be absent
(`null`), as may `backgroundColor`, `width` and `height`. -/

inductive Thickness where
  | dotted | dashed | solid | solidMedium | solidThick | double
  deriving DecidableEq, Repr

inductive Wrap where
  | wrap | overflow | clip
  deriving DecidableEq, Repr

structure BSide where
  color : String
  thickness : Thickness
  deriving DecidableEq, Repr

structure BorderV where
  top : Option BSide
  bottom : Option BSide
  left : Option BSide
  right : Option BSide
  deriving DecidableEq, Repr

structure FontV where
  color : String
  size : Nat
  family : String
  bold : Bool
  italic : Bool
  underline : Bool
  strikethrough : Bool
  deriving DecidableEq, Repr

structure AlignV where
  horizontal : String
  vertical : String
  deriving DecidableEq, Repr

structure StyleV where
  backgroundColor : Option String
  font : FontV
  alignment : AlignV
  wrap : Wrap
  border : BorderV
  rotationAngle : Int
  width : Option Nat
  height : Option Nat
  deriving DecidableEq, Repr

/-- The result of `new Style()` with no arguments (all defaults). -/
def defaultStyle : StyleV :=
  { backgroundColor := none
    font := { color := "black", size := 10, family := "Arial",
              bold := false, italic := false, underline := false,
              strikethrough := false }
    alignment := { horizontal := "left", vertical := "top" }
    wrap := .overflow
    border := { top := none, bottom := none, left := none, right := none }
    rotationAngle := 0
    width := none
    height := none }

/-- `Renderer._mergeStyles` (ReaSheet.js lines 463-496) on two constructed
styles.  Each group is merged with an object spread
`{ ...inherited.props.g, ...own.props.g }`; since the `Style` constructor
populates every key of every group (and the `Border` constructor sets all
four side keys, `null` when absent), the spread always yields the own
style's value for every field, `null`s included.  The trailing
`if (inheritedStyle.props.width !== null) ...` lines give the parent's
explicit width/height precedence over the child's. -/
def mergeStyles (inheritedStyle ownStyle : StyleV) : StyleV :=
  { backgroundColor := ownStyle.backgroundColor
    font := ownStyle.font
    alignment := ownStyle.alignment
    wrap := ownStyle.wrap
    border := ownStyle.border
    rotationAngle := ownStyle.rotationAngle
    width := match inheritedStyle.width with
             | some w => some w
             | none => ownStyle.width
    height := match inheritedStyle.height with
              | some h => some h
              | none => ownStyle.height }

/-! ## Dropdown constructor (ReaSheet.js lines 76-113)

A candidate is either a plain string or an object
`{ value, style }`; `DItem` is that union. -/

inductive DItem where
  | plain (s : String)
  | styled (value : String) (style : StyleV)
  deriving DecidableEq, Repr

def DItem.isStyled : DItem → Bool
  | .plain _ => false
  | .styled _ _ => true

/-- The plain value carried by a candidate (`v.value` for objects,
the string itself otherwise). -/
def DItem.str : DItem → String
  | .plain s => s
  | .styled v _ => v

structure DropdownProps where
  values : List DItem
  plainValues : List DItem
  value : DItem
  isObjectArray : Bool
  deriving DecidableEq, Repr

/-- JavaScript truthiness of the `selected` argument (a string or `null`):
`null` and the empty string are falsy. -/
def selectedTruthy : Option String → Bool
  | none => false
  | some s => !(s == "")

/-- The `Dropdown` constructor.  `selected = none` models an omitted or
`null` argument.  Mirrors ReaSheet.js lines 77-113: reject an empty list;
if the first element is an object, require every element to be a valid
object; derive `plainValues`; default the selection to `plainValues[0]`
when `selected` is `null`; check membership only when `selected` is
truthy. -/
def dropdownNew (values : List DItem) (selected : Option String) :
    Except String DropdownProps :=
  if values.isEmpty then
    .error "Dropdown component requires a non-empty values prop array."
  else
    let isObjectArray : Bool :=
      match values.head? with
      | some (.styled _ _) => true
      | _ => false
    if isObjectArray && !(values.all DItem.isStyled) then
      .error "Dropdown values array must be composed of objects with value and style properties."
    else
      let plainValues : List DItem :=
        if isObjectArray then values.map (fun v => .plain v.str) else values
      let initialSelection : DItem :=
        match selected with
        | some s => .plain s
        | none => plainValues.headD (.plain "")
      if selectedTruthy selected &&
          !(plainValues.contains (.plain (selected.getD ""))) then
        .error "The selected value is not in the list of available values."
      else
        .ok { values := values, plainValues := plainValues,
              value := initialSelection, isObjectArray := isObjectArray }

/-- Well-formedness of the candidate list as the constructor checks it:
when the first element is an object, every element must be one. -/
def objArrayOk (values : List DItem) : Bool :=
  match values.head? with
  | some (.styled _ _) => values.all DItem.isStyled
  | _ => true

/-! ## Content descriptors and render directives -/

/-- A spreadsheet cell value as JavaScript supplies it to `setValues`. -/
inductive JSVal where
  | null
  | str (s : String)
  | num (n : Int)
  | bool (b : Bool)
  | date (t : Int)
  deriving DecidableEq, Repr

/-- An opaque data-validation rule, keyed by how the source builds it. -/
inductive VRule where
  | checkbox
  | valueInList (vals : List DItem)
  | date
  deriving DecidableEq, Repr

/-- A 1-based rectangle, as produced by `sheet.getRange(row, col, numRows,
numCols)`. -/
structure Rect where
  row : Nat
  col : Nat
  numRows : Nat
  numCols : Nat
  deriving DecidableEq, Repr

/-- A conditional-format rule as `Dropdown.getRenderDirectives` builds it:
text-equality match with background and font color from the candidate's
style, bound to the leaf's resolved range. -/
structure CFRule where
  whenTextEqualTo : String
  background : Option String
  fontColor : String
  range : Rect
  deriving DecidableEq, Repr

/-- The content-descriptor union (`Text`, `Checkbox`, `Dropdown`,
`DatePicker`, `Number` in ReaSheet.js).  A `DatePicker` value is a date
or `null`. -/
inductive CType where
  | text (value : String)
  | checkbox (isChecked : Bool)
  | dropdown (props : DropdownProps)
  | datePicker (format : String) (value : Option Int)
  | number (value : Int) (format : String)
  deriving DecidableEq, Repr

/-- `type.props.value`, the literal written into the value grid.  A
dropdown stores a plain string selection (see `dropdownNew`). -/
def ctypeValue : CType → JSVal
  | .text v => .str v
  | .checkbox b => .bool b
  | .dropdown p => .str p.value.str
  | .datePicker _ v => match v with
    | some t => .date t
    | none => .null
  | .number v _ => .num v

structure Directives where
  validation : Option VRule
  numberFormat : Option String
  conditionalFormatRules : List CFRule
  deriving DecidableEq, Repr

/-- `Type.getRenderDirectives(range)` for each descriptor.  For a
`Dropdown` over styled candidates, one rule per candidate (every element
carries a style in the object-array form), bound to the given range. -/
def getRenderDirectives (t : CType) (range : Rect) : Directives :=
  match t with
  | .text _ => { validation := none, numberFormat := none,
                 conditionalFormatRules := [] }
  | .checkbox _ => { validation := some .checkbox, numberFormat := none,
                     conditionalFormatRules := [] }
  | .dropdown p =>
      { validation := some (.valueInList p.plainValues)
        numberFormat := none
        conditionalFormatRules :=
          if p.isObjectArray then
            p.values.filterMap (fun v =>
              match v with
              | .styled s st => some { whenTextEqualTo := s,
                                       background := st.backgroundColor,
                                       fontColor := st.font.color,
                                       range := range }
              | .plain _ => none)
          else [] }
  | .datePicker fmt _ =>
      { validation := some .date
        numberFormat := if fmt == "" then none else some fmt
        conditionalFormatRules := [] }
  | .number _ fmt =>
      { validation := none
        numberFormat := if fmt == "" then none else some fmt
        conditionalFormatRules := [] }

/-! ## Layout resolver

`LNode` is the layout-component tree: `Cell` leaves and `HStack` /
`VStack` containers (ReaSheet.js classes of the same names).  A leaf's
own style is optional; `Cell.render` substitutes `new Style()` when it is
absent.  `RCell` is a ResolvedCell: absolute position plus the descriptor
props with the style replaced by the fully merged one. -/

structure CProps where
  ctype : CType
  style : Option StyleV
  note : String
  colSpan : Nat
  rowSpan : Nat
  deriving DecidableEq, Repr

structure RProps where
  ctype : CType
  style : StyleV
  note : String
  colSpan : Nat
  rowSpan : Nat
  deriving DecidableEq, Repr

structure RCell where
  row : Nat
  col : Nat
  props : RProps
  deriving DecidableEq, Repr

inductive LNode where
  | cellN (props : CProps)
  | hstackN (children : List LNode) (style : Option StyleV)
  | vstackN (children : List LNode) (style : Option StyleV)
  deriving Repr

structure Pos where
  row : Nat
  col : Nat
  deriving DecidableEq, Repr

/-- The occupancy set.  The source uses a JavaScript `Set` of
`"row:col"` strings; a duplicate-free list of pairs with membership-
tested insertion models it. -/
abbrev Occ := List (Nat × Nat)

def occAdd (m : Occ) (x : Nat × Nat) : Occ :=
  if x ∈ m then m else x :: m

def occLen (m : Occ) : Nat := List.length m

/-- `x || 1` on a span count: JavaScript replaces a falsy (zero) span
with 1. -/
def orOne (n : Nat) : Nat := if n = 0 then 1 else n

/-- All `(rowOffset, colOffset)` pairs of a span, row-major, as the
nested `for` loops of the source visit them. -/
def spanOffsets (rowSpan colSpan : Nat) : List (Nat × Nat) :=
  (List.range rowSpan).flatMap (fun r => (List.range colSpan).map (fun c => (r, c)))

/-- `Cell.render`'s occupancy marking: every coordinate of the
`(rowSpan || 1) x (colSpan || 1)` span is added. -/
def markSpan (m : Occ) (row col rowSpan colSpan : Nat) : Occ :=
  (spanOffsets (orOne rowSpan) (orOne colSpan)).foldl
    (fun acc rc => occAdd acc (row + rc.1, col + rc.2)) m

/-- The collision-skip loop of `HStack.render`: advance the column while
the single coordinate `(row, col)` is occupied.  The source loop runs
unbounded; a fuel of `occLen m + 1` probes more distinct coordinates than
the set has members, so it always reaches the first free column, which is
where the source loop stops. -/
def skipCol (m : Occ) (row : Nat) : Nat → Nat → Nat
  | 0, col => col
  | fuel + 1, col => if (row, col) ∈ m then skipCol m row fuel (col + 1) else col

/-- The collision-skip loop of `VStack.render`: advance the row. -/
def skipRow (m : Occ) (col : Nat) : Nat → Nat → Nat
  | 0, row => row
  | fuel + 1, row => if (row, col) ∈ m then skipRow m col fuel (row + 1) else row

mutual

/-- `Component.render` dispatch: `Cell.render` (ReaSheet.js 413-431),
`HStack.render` (308-337), `VStack.render` (354-383), returning the
resolved cells and the updated occupancy set. -/
def renderNode : LNode → Pos → StyleV → Occ → List RCell × Occ
  | .cellN props, p, inheritedStyle, m =>
      let finalStyle := props.style.getD defaultStyle
      let mergedStyle := mergeStyles inheritedStyle finalStyle
      let rc : RCell := { row := p.row, col := p.col,
                          props := { ctype := props.ctype, style := mergedStyle,
                                     note := props.note, colSpan := props.colSpan,
                                     rowSpan := props.rowSpan } }
      ([rc], markSpan m p.row p.col props.rowSpan props.colSpan)
  | .hstackN children style, p, inheritedStyle, m =>
      let containerStyle := match style with
        | some s => mergeStyles inheritedStyle s
        | none => inheritedStyle
      renderH children p.row p.col containerStyle m
  | .vstackN children style, p, inheritedStyle, m =>
      let containerStyle := match style with
        | some s => mergeStyles inheritedStyle s
        | none => inheritedStyle
      renderV children p.row p.col containerStyle m

/-- The child loop of `HStack.render`: the cursor row is fixed, the
cursor column after each child becomes `childMaxCol + 1` where
`childMaxCol` is the maximum of `col + (colSpan || 1) - 1` over the
child's resolved cells (0 when the child resolved to none). -/
def renderH : List LNode → Nat → Nat → StyleV → Occ → List RCell × Occ
  | [], _, _, _, m => ([], m)
  | child :: rest, row, col, containerStyle, m =>
      let startCol := skipCol m row (occLen m + 1) col
      let res := renderNode child ⟨row, startCol⟩ containerStyle m
      let childMaxCol := res.1.foldl
        (fun acc c => max acc (c.col + orOne c.props.colSpan - 1)) 0
      let resRest := renderH rest row (childMaxCol + 1) containerStyle res.2
      (res.1 ++ resRest.1, resRest.2)

/-- The child loop of `VStack.render`, symmetric to `renderH`. -/
def renderV : List LNode → Nat → Nat → StyleV → Occ → List RCell × Occ
  | [], _, _, _, m => ([], m)
  | child :: rest, row, col, containerStyle, m =>
      let startRow := skipRow m col (occLen m + 1) row
      let res := renderNode child ⟨startRow, col⟩ containerStyle m
      let childMaxRow := res.1.foldl
        (fun acc c => max acc (c.row + orOne c.props.rowSpan - 1)) 0
      let resRest := renderV rest (childMaxRow + 1) col containerStyle res.2
      (res.1 ++ resRest.1, resRest.2)

end

/-- `Renderer.render`: resolve the root at `(1,1)` with a default
inherited style and an empty occupancy set; the resolved-cell list is
what `_commit` consumes. -/
def resolveRoot (root : LNode) : List RCell :=
  (renderNode root ⟨1, 1⟩ defaultStyle []).1

/-! ## Grid commit engine (`Renderer._commit`, ReaSheet.js 498-713)

The grids the engine builds are dense `numRows x numCols` arrays indexed
from the bounding box's top-left corner; every write stays in bounds, so
a total function over grid coordinates with pointwise update models an
array faithfully.  The sequence of mutating calls issued against the
sheet / range objects is reified as a `List Call`. -/

def Grid (α : Type) := Nat → Nat → α

def gset {α : Type} (g : Grid α) (r c : Nat) (a : α) : Grid α :=
  fun r' c' => if r' = r ∧ c' = c then a else g r' c'

def gconst {α : Type} (a : α) : Grid α := fun _ _ => a

/-- The per-sub-cell border record the source stores in the `borders`
grid: each side holds the style side when this sub-cell lies on the
matching edge of the span and the side is present, and `false`/`null`
(here `none`) otherwise. -/
structure BInfo where
  top : Option BSide
  bottom : Option BSide
  left : Option BSide
  right : Option BSide
  deriving DecidableEq, Repr

/-- Every mutating call the commit engine can issue against the sheet
surface, in the argument shape the source uses.  `setBorder` arguments
mirror `range.setBorder(top, left, bottom, right, vertical, horizontal,
color, style)` with the two range-interior flags always `null`. -/
inductive Call where
  | clear (range : Rect)
  | setNumberFormats (g : Grid String)
  | setDataValidations (g : Grid (Option VRule))
  | setValues (g : Grid JSVal)
  | setNotes (g : Grid (Option String))
  | setBackgrounds (g : Grid (Option String))
  | setFontColors (g : Grid (Option String))
  | setFontSizes (g : Grid (Option Nat))
  | setFontWeights (g : Grid (Option String))
  | setFontStyles (g : Grid (Option String))
  | setFontLines (g : Grid (Option String))
  | setHorizontalAlignments (g : Grid (Option String))
  | setVerticalAlignments (g : Grid (Option String))
  | setWrapStrategies (g : Grid Wrap)
  | setColumnWidth (col width : Nat)
  | setRowHeight (row height : Nat)
  | setTextRotation (range : Rect) (angle : Int)
  | setBorder (range : Rect) (top left bottom right : Bool)
      (color : String) (thickness : Thickness)
  | setConditionalFormatRules (rules : List CFRule)
  | merge (range : Rect)

/-- The per-property accumulators `_commit` fills before issuing calls:
one dense grid per visual property plus the sparse width/height maps and
the ordered merge / conditional-format lists. -/
structure GridsAcc where
  values : Grid JSVal
  notes : Grid (Option String)
  backgrounds : Grid (Option String)
  fontColors : Grid (Option String)
  fontSizes : Grid (Option Nat)
  fontWeights : Grid (Option String)
  fontStyles : Grid (Option String)
  fontLines : Grid (Option String)
  horizontalAlignments : Grid (Option String)
  verticalAlignments : Grid (Option String)
  wrapStrategies : Grid Wrap
  validations : Grid (Option VRule)
  numberFormats : Grid String
  rotations : Grid Int
  borders : Grid (Option BInfo)
  widths : List (Nat × Nat)
  heights : List (Nat × Nat)
  merges : List Rect
  conditionalFormats : List CFRule

/-- The grids as `createGrid` initialises them: `null` everywhere except
the wrap strategies (`OVERFLOW`), number formats (`"General"`), rotations
(`0`) and borders (`false`). -/
def initGrids : GridsAcc :=
  { values := gconst .null
    notes := gconst none
    backgrounds := gconst none
    fontColors := gconst none
    fontSizes := gconst none
    fontWeights := gconst none
    fontStyles := gconst none
    fontLines := gconst none
    horizontalAlignments := gconst none
    verticalAlignments := gconst none
    wrapStrategies := gconst .overflow
    validations := gconst none
    numberFormats := gconst "General"
    rotations := gconst 0
    borders := gconst none
    widths := []
    heights := []
    merges := []
    conditionalFormats := [] }

/-- JavaScript object-key assignment `obj[k] = v`: replace the value of
an existing key, otherwise add the pair. -/
def upsert (l : List (Nat × Nat)) (k v : Nat) : List (Nat × Nat) :=
  if l.any (fun p => p.1 = k) then
    l.map (fun p => if p.1 = k then (k, v) else p)
  else l ++ [(k, v)]

/-- The per-cell template `_commit` derives from the descriptor before
filling the span (`cellData`, ReaSheet.js 560-580). -/
structure CellData where
  value : JSVal
  note : String
  background : Option String
  fontColor : String
  fontSize : Nat
  fontWeight : String
  fontStyle : String
  fontLine : Option String
  hAlign : String
  vAlign : String
  wrap : Wrap
  validation : Option VRule
  border : BorderV
  numberFormat : Option String
  rotation : Int

def mkCellData (p : RProps) (directives : Directives) : CellData :=
  { value := ctypeValue p.ctype
    note := p.note
    background := p.style.backgroundColor
    fontColor := p.style.font.color
    fontSize := p.style.font.size
    fontWeight := if p.style.font.bold then "bold" else "normal"
    fontStyle := if p.style.font.italic then "italic" else "normal"
    fontLine := if p.style.font.underline then some "underline"
                else if p.style.font.strikethrough then some "line-through"
                else none
    hAlign := p.style.alignment.horizontal
    vAlign := p.style.alignment.vertical
    wrap := p.style.wrap
    validation := directives.validation
    border := p.style.border
    numberFormat := directives.numberFormat
    rotation := p.style.rotationAngle }

/-- One iteration of the span-filling loops (ReaSheet.js 586-616) at
grid coordinate `(r, c) = (cell.row - minRow + rOffset, cell.col -
minCol + cOffset)`: the value is the literal only at the top-left
offset and the empty string elsewhere; every other property, the note
included, is written unconditionally; the border record keeps a side
only on the matching outer edge of the span. -/
def writeSub (g : GridsAcc) (cd : CellData) (r c rOffset cOffset rowSpan colSpan : Nat) :
    GridsAcc :=
  { g with
    values := gset g.values r c
      (if rOffset = 0 ∧ cOffset = 0 then cd.value else .str "")
    notes := gset g.notes r c (some cd.note)
    backgrounds := gset g.backgrounds r c cd.background
    fontColors := gset g.fontColors r c (some cd.fontColor)
    fontSizes := gset g.fontSizes r c (some cd.fontSize)
    fontWeights := gset g.fontWeights r c (some cd.fontWeight)
    fontStyles := gset g.fontStyles r c (some cd.fontStyle)
    fontLines := gset g.fontLines r c cd.fontLine
    horizontalAlignments := gset g.horizontalAlignments r c (some cd.hAlign)
    verticalAlignments := gset g.verticalAlignments r c (some cd.vAlign)
    wrapStrategies := gset g.wrapStrategies r c cd.wrap
    validations := gset g.validations r c cd.validation
    rotations := gset g.rotations r c cd.rotation
    numberFormats := match cd.numberFormat with
      | some f => gset g.numberFormats r c f
      | none => g.numberFormats
    borders := gset g.borders r c (some
      { top := if rOffset = 0 then cd.border.top else none
        bottom := if rOffset = rowSpan - 1 then cd.border.bottom else none
        left := if cOffset = 0 then cd.border.left else none
        right := if cOffset = colSpan - 1 then cd.border.right else none }) }

/-- The body of `this.resolvedCells.forEach(...)` in `_commit` for one
resolved cell: fetch the directives at the cell's own range, record
width/height wishes, collect conditional-format rules, fill the span,
and queue a merge when the span exceeds one sub-cell. -/
def processCell (minRow minCol : Nat) (g : GridsAcc) (cell : RCell) : GridsAcc :=
  let p := cell.props
  let directives := getRenderDirectives p.ctype
    ⟨cell.row, cell.col, p.rowSpan, p.colSpan⟩
  let g :=
    { g with
      widths := match p.style.width with
        | some w => upsert g.widths cell.col w
        | none => g.widths
      heights := match p.style.height with
        | some h => upsert g.heights cell.row h
        | none => g.heights
      conditionalFormats := g.conditionalFormats ++ directives.conditionalFormatRules }
  let cd := mkCellData p directives
  let g := (spanOffsets p.rowSpan p.colSpan).foldl
    (fun acc rc =>
      writeSub acc cd (cell.row - minRow + rc.1) (cell.col - minCol + rc.2)
        rc.1 rc.2 p.rowSpan p.colSpan) g
  if p.rowSpan > 1 ∨ p.colSpan > 1 then
    { g with merges := g.merges ++ [⟨cell.row, cell.col, p.rowSpan, p.colSpan⟩] }
  else g

def buildGrids (cells : List RCell) (minRow minCol : Nat) : GridsAcc :=
  cells.foldl (processCell minRow minCol) initGrids

/-- Insertion sort by key, ascending: a JavaScript `for...in` loop over
an object whose keys are array indices visits them in ascending numeric
order. -/
def insertByKey (p : Nat × Nat) : List (Nat × Nat) → List (Nat × Nat)
  | [] => [p]
  | q :: l => if p.1 ≤ q.1 then p :: q :: l else q :: insertByKey p l

def sortByKey (l : List (Nat × Nat)) : List (Nat × Nat) :=
  l.foldr insertByKey []

/-- The side-by-side `setBorder` calls for one sub-cell (ReaSheet.js
656-704), in source order: top, left, bottom, right. -/
def borderSideCalls (range : Rect) (bi : BInfo) : List Call :=
  (match bi.top with
   | some s => [.setBorder range true false false false s.color s.thickness]
   | none => []) ++
  (match bi.left with
   | some s => [.setBorder range false true false false s.color s.thickness]
   | none => []) ++
  (match bi.bottom with
   | some s => [.setBorder range false false true false s.color s.thickness]
   | none => []) ++
  (match bi.right with
   | some s => [.setBorder range false false false true s.color s.thickness]
   | none => [])

/-- The row-major per-sub-cell pass (ReaSheet.js 645-706): for each grid
coordinate, a rotation call when the stored angle is non-zero, then the
border calls for the stored border record. -/
def perCellCalls (minRow minCol numRows numCols : Nat)
    (rotations : Grid Int) (borders : Grid (Option BInfo)) : List Call :=
  (List.range numRows).flatMap (fun r =>
    (List.range numCols).flatMap (fun c =>
      (if rotations r c ≠ 0 then
        [.setTextRotation ⟨minRow + r, minCol + c, 1, 1⟩ (rotations r c)]
       else []) ++
      (match borders r c with
       | some bi => borderSideCalls ⟨minRow + r, minCol + c, 1, 1⟩ bi
       | none => [])))

/-- The thirteen chained bulk setters issued against the cleared
bounding-box range, in source order (ReaSheet.js 623-636). -/
def bulkCalls (g : GridsAcc) : List Call :=
  [.setNumberFormats g.numberFormats,
   .setDataValidations g.validations,
   .setValues g.values,
   .setNotes g.notes,
   .setBackgrounds g.backgrounds,
   .setFontColors g.fontColors,
   .setFontSizes g.fontSizes,
   .setFontWeights g.fontWeights,
   .setFontStyles g.fontStyles,
   .setFontLines g.fontLines,
   .setHorizontalAlignments g.horizontalAlignments,
   .setVerticalAlignments g.verticalAlignments,
   .setWrapStrategies g.wrapStrategies]

/-- The `for...in` loops over the sparse width and height maps
(ReaSheet.js 638-643), keys ascending. -/
def dimensionCalls (g : GridsAcc) : List Call :=
  (sortByKey g.widths).map (fun p => .setColumnWidth p.1 p.2) ++
  (sortByKey g.heights).map (fun p => .setRowHeight p.1 p.2)

/-- The single conditional-format installation, issued only when rules
were collected (ReaSheet.js 708-710). -/
def cfCalls (g : GridsAcc) : List Call :=
  if g.conditionalFormats.isEmpty then []
  else [.setConditionalFormatRules g.conditionalFormats]

/-- The final merge pass (ReaSheet.js 712). -/
def mergeCalls (g : GridsAcc) : List Call :=
  g.merges.map .merge

/-- `Renderer._commit` as the sequence of calls it issues.  An empty
resolved-cell list returns immediately with no call; otherwise: clear
the bounding box, the thirteen chained bulk setters, the column-width
and row-height calls, the per-sub-cell rotation/border pass, one
conditional-format installation when any rules were collected, and the
merges last. -/
def commitCalls (cells : List RCell) : List Call :=
  match cells with
  | [] => []
  | c0 :: _ =>
    let minRow := cells.foldl (fun a c => min a c.row) c0.row
    let maxRow := cells.foldl (fun a c => max a (c.row + c.props.rowSpan - 1)) 0
    let minCol := cells.foldl (fun a c => min a c.col) c0.col
    let maxCol := cells.foldl (fun a c => max a (c.col + c.props.colSpan - 1)) 0
    let numRows := maxRow + 1 - minRow
    let numCols := maxCol + 1 - minCol
    if numRows = 0 ∨ numCols = 0 then []
    else
      let g := buildGrids cells minRow minCol
      [.clear ⟨minRow, minCol, numRows, numCols⟩] ++
      bulkCalls g ++
      dimensionCalls g ++
      perCellCalls minRow minCol numRows numCols g.rotations g.borders ++
      cfCalls g ++
      mergeCalls g

/-- The full pipeline `render(root, sheet)`: resolve, then commit. -/
def renderProgram (root : LNode) : List Call :=
  commitCalls (resolveRoot root)

/-- The conditional-format rules collected across the resolved cells, in
collection order (one `forEach` push per cell). -/
def collectedRules (cells : List RCell) : List CFRule :=
  cells.flatMap (fun cell =>
    (getRenderDirectives cell.props.ctype
      ⟨cell.row, cell.col, cell.props.rowSpan, cell.props.colSpan⟩).conditionalFormatRules)

/-- The effect of one surface call on the sheet's conditional-format
rule list: `setConditionalFormatRules` replaces the whole list (the
Google Apps Script semantics of the method the source calls); no other
call touches it. -/
def ruleStep (st : List CFRule) (c : Call) : List CFRule :=
  match c with
  | .setConditionalFormatRules rs => rs
  | _ => st

/-- The sheet's conditional-format rule list after a call sequence runs,
starting from the pre-existing rules `pre`. -/
def rulesAfter (pre : List CFRule) (calls : List Call) : List CFRule :=
  calls.foldl ruleStep pre

/-! ## Derived notions used by the claims -/

/-- The `(row, col)` coordinate `(r, k)` lies in the full
`rowSpan x colSpan` extent of a resolved cell. -/
def covers (c : RCell) (r k : Nat) : Prop :=
  c.row ≤ r ∧ r < c.row + c.props.rowSpan ∧ c.col ≤ k ∧ k < c.col + c.props.colSpan

instance (c : RCell) (r k : Nat) : Decidable (covers c r k) := by
  unfold covers; infer_instance

/-- Two resolved cells' spans share no coordinate. -/
def cellsDisjoint (a b : RCell) : Prop :=
  ∀ r k, covers a r k → covers b r k → False

/-- The cell's span touches column `k`. -/
def coversColumn (c : RCell) (k : Nat) : Prop :=
  c.col ≤ k ∧ k < c.col + c.props.colSpan

/-- The cell's span touches row `r`. -/
def coversRow (c : RCell) (r : Nat) : Prop :=
  c.row ≤ r ∧ r < c.row + c.props.rowSpan

instance (c : RCell) (k : Nat) : Decidable (coversColumn c k) := by
  unfold coversColumn; infer_instance

instance (c : RCell) (r : Nat) : Decidable (coversRow c r) := by
  unfold coversRow; infer_instance

mutual

/-- A constructor-accepted tree with no empty container: every leaf has
positive spans (the `Cell` constructor rejects anything else) and every
stack has at least one child. -/
def goodTreeB : LNode → Bool
  | .cellN props => decide (1 ≤ props.rowSpan) && decide (1 ≤ props.colSpan)
  | .hstackN children _ => !children.isEmpty && goodListB children
  | .vstackN children _ => !children.isEmpty && goodListB children

def goodListB : List LNode → Bool
  | [] => true
  | t :: ts => goodTreeB t && goodListB ts

end

/-- The resolved cells of `HStack.render` grouped by direct child: the
same cursor walk as `renderH`, kept per child instead of concatenated
(`groupsH_join` below relates the two). -/
def groupsH : List LNode → Nat → Nat → StyleV → Occ → List (List RCell)
  | [], _, _, _, _ => []
  | child :: rest, row, col, containerStyle, m =>
      let startCol := skipCol m row (occLen m + 1) col
      let res := renderNode child ⟨row, startCol⟩ containerStyle m
      let childMaxCol := res.1.foldl
        (fun acc c => max acc (c.col + orOne c.props.colSpan - 1)) 0
      res.1 :: groupsH rest row (childMaxCol + 1) containerStyle res.2

/-- Per-child grouping of `VStack.render`, symmetric to `groupsH`. -/
def groupsV : List LNode → Nat → Nat → StyleV → Occ → List (List RCell)
  | [], _, _, _, _ => []
  | child :: rest, row, col, containerStyle, m =>
      let startRow := skipRow m col (occLen m + 1) row
      let res := renderNode child ⟨startRow, col⟩ containerStyle m
      let childMaxRow := res.1.foldl
        (fun acc c => max acc (c.row + orOne c.props.rowSpan - 1)) 0
      res.1 :: groupsV rest (childMaxRow + 1) col containerStyle res.2

/-- Commit-phase number of a surface call: clear, bulk grid writes,
dimensions, the per-cell rotation/border pass, conditional formats,
merges. -/
def phaseOf : Call → Nat
  | .clear _ => 0
  | .setColumnWidth _ _ => 2
  | .setRowHeight _ _ => 2
  | .setTextRotation _ _ => 3
  | .setBorder _ _ _ _ _ _ _ => 3
  | .setConditionalFormatRules _ => 4
  | .merge _ => 5
  | _ => 1

def isSetBorder : Call → Bool
  | .setBorder _ _ _ _ _ _ _ => true
  | _ => false

def isSetCFR : Call → Bool
  | .setConditionalFormatRules _ => true
  | _ => false

/-- A `setBorder` call targets a single sub-cell; any other call
satisfies this trivially. -/
def borderIs1x1 : Call → Bool
  | .setBorder range _ _ _ _ _ _ => range.numRows == 1 && range.numCols == 1
  | _ => true

/-- A resolved cell lies weakly below-right of `(row, col)` and has
positive spans. -/
def cellFrom (row col : Nat) (c : RCell) : Prop :=
  row ≤ c.row ∧ col ≤ c.col ∧ 1 ≤ c.props.rowSpan ∧ 1 ≤ c.props.colSpan

/-! ## Concrete inputs used by scenario and counterexample theorems -/

/-- A plain default-styled leaf with the given spans. -/
def pl (rowSpan colSpan : Nat) : LNode :=
  .cellN { ctype := .text "", style := none, note := "",
           colSpan := colSpan, rowSpan := rowSpan }

/-- The tree of the C5 scenario:
`VStack([HStack([Leaf(rowSpan=2), Leaf()]), HStack([Leaf(), Leaf()])])`. -/
def c5tree : LNode :=
  .vstackN [.hstackN [pl 2 1, pl 1 1] none, .hstackN [pl 1 1, pl 1 1] none] none

/-- A constructor-accepted tree with an empty HStack child.  Rendering
it from `(1,1)`: the first HStack places leaves at `(1,1)` and `(1,2)`
(the latter with rowSpan 2, so `(2,2)` is occupied); the empty HStack
resolves to no cells, which resets the VStack cursor to
`childMaxRow + 1 = 1`; the third child is deflected from `(1,1)` to the
free `(2,1)` and its colSpan-2 leaf then covers the occupied `(2,2)`. -/
def c1tree : LNode :=
  .vstackN [.hstackN [pl 1 1, pl 2 1] none,
            .hstackN [] none,
            .hstackN [pl 1 2] none] none

/-- A resolved 2 x 2 leaf with value `"v"` and note `"n"`. -/
def c4cell : RCell :=
  ⟨1, 1, { ctype := .text "v", style := defaultStyle, note := "n",
           colSpan := 2, rowSpan := 2 }⟩

/-- A style with only a solid red top border. -/
def sBord : StyleV :=
  { defaultStyle with
      border := { top := some ⟨"red", .solid⟩, bottom := none,
                  left := none, right := none } }

def c6a : RCell :=
  ⟨1, 1, { ctype := .text "", style := sBord, note := "", colSpan := 1, rowSpan := 1 }⟩

def c6b : RCell :=
  ⟨1, 2, { ctype := .text "", style := sBord, note := "", colSpan := 1, rowSpan := 1 }⟩

/-- A style with a top border and a non-zero rotation. -/
def sRotBord : StyleV :=
  { defaultStyle with
      border := { top := some ⟨"red", .solid⟩, bottom := none,
                  left := none, right := none }
      rotationAngle := 45 }

def c8a : RCell :=
  ⟨1, 1, { ctype := .text "", style := sRotBord, note := "", colSpan := 1, rowSpan := 1 }⟩

def c8b : RCell :=
  ⟨1, 2, { ctype := .text "", style := sRotBord, note := "", colSpan := 1, rowSpan := 1 }⟩

def sRed : StyleV := { defaultStyle with backgroundColor := some "#f00" }

/-- The stored props of `Dropdown({values: [{value: "A", style: sRed}]})`. -/
def ddRed : DropdownProps :=
  { values := [.styled "A" sRed], plainValues := [.plain "A"],
    value := .plain "A", isObjectArray := true }

def c3cell : RCell :=
  ⟨1, 1, { ctype := .dropdown ddRed, style := defaultStyle, note := "",
           colSpan := 1, rowSpan := 1 }⟩

/-- A conditional-format rule already installed on the sheet before the
render. -/
def preRule : CFRule :=
  { whenTextEqualTo := "OLD", background := none, fontColor := "black",
    range := ⟨9, 9, 1, 1⟩ }

/-- The rule the dropdown cell's directives produce. -/
def ruleA : CFRule :=
  { whenTextEqualTo := "A", background := some "#f00", fontColor := "black",
    range := ⟨1, 1, 1, 1⟩ }

/-- Direct children of one HStack: a VStack whose second leaf spans
columns 1-2 on row 2, an empty HStack (which resets the cursor column
to `childMaxCol + 1 = 1`), and a plain leaf, which the collision skip
then parks at the free `(1,2)` — inside the first child's column
range. -/
def c7children : List LNode :=
  [.vstackN [pl 1 1, pl 1 2] none, .hstackN [] none, pl 1 1]

/-! ## Basic lemmas about the resolver -/

theorem skipCol_ge (m : Occ) (row : Nat) :
    ∀ fuel col, col ≤ skipCol m row fuel col := by
  intro fuel
  induction fuel with
  | zero => intro col; simp [skipCol]
  | succ n ih =>
      intro col
      simp only [skipCol]
      split
      · exact le_trans (Nat.le_succ col) (ih (col + 1))
      · exact le_refl col

theorem skipRow_ge (m : Occ) (col : Nat) :
    ∀ fuel row, row ≤ skipRow m col fuel row := by
  intro fuel
  induction fuel with
  | zero => intro row; simp [skipRow]
  | succ n ih =>
      intro row
      simp only [skipRow]
      split
      · exact le_trans (Nat.le_succ row) (ih (row + 1))
      · exact le_refl row

theorem foldl_max_init_le {α : Type} (f : α → Nat) (l : List α) :
    ∀ i : Nat, i ≤ l.foldl (fun a c => max a (f c)) i := by
  induction l with
  | nil => intro i; simp
  | cons x xs ih =>
      intro i
      exact le_trans (Nat.le_max_left i (f x)) (ih (max i (f x)))

theorem foldl_max_mem_le {α : Type} (f : α → Nat) (l : List α) :
    ∀ i : Nat, ∀ c ∈ l, f c ≤ l.foldl (fun a c => max a (f c)) i := by
  induction l with
  | nil => intro i c hc; simp at hc
  | cons x xs ih =>
      intro i c hc
      rcases List.mem_cons.mp hc with rfl | hc
      · exact le_trans (Nat.le_max_right i (f c)) (foldl_max_init_le f xs _)
      · exact ih _ c hc

theorem foldl_min_le_init {α : Type} (f : α → Nat) (l : List α) :
    ∀ i : Nat, l.foldl (fun a c => min a (f c)) i ≤ i := by
  induction l with
  | nil => intro i; simp
  | cons x xs ih =>
      intro i
      exact le_trans (ih _) (Nat.min_le_left i (f x))

theorem countP_shift_col (m : List (Nat × Nat)) (row col : Nat)
    (hmem : (row, col) ∈ m) :
    m.countP (fun p => decide (p.1 = row ∧ col + 1 ≤ p.2)) + 1 ≤
      m.countP (fun p => decide (p.1 = row ∧ col ≤ p.2)) := by
  induction m with
  | nil => simp at hmem
  | cons x xs ih =>
      have hmono : xs.countP (fun p => decide (p.1 = row ∧ col + 1 ≤ p.2)) ≤
          xs.countP (fun p => decide (p.1 = row ∧ col ≤ p.2)) := by
        apply List.countP_mono_left
        intro a _ ha
        simp only [decide_eq_true_eq] at ha ⊢
        omega
      rcases List.mem_cons.mp hmem with rfl | hmem
      · simp only [List.countP_cons]
        split <;> split <;> (try simp_all) <;> omega
      · have := ih hmem
        simp only [List.countP_cons]
        split <;> split <;> (try simp_all) <;> omega

/-- With enough fuel, the column-skip loop reaches a free coordinate:
the loop only stops on a coordinate outside the occupancy set, exactly
like the unbounded `while` loop of the source. -/
theorem skipCol_spec (m : Occ) (row : Nat) :
    ∀ fuel col, m.countP (fun p => decide (p.1 = row ∧ col ≤ p.2)) < fuel →
      (row, skipCol m row fuel col) ∉ m := by
  intro fuel
  induction fuel with
  | zero => intro col h; omega
  | succ f ih =>
      intro col h
      simp only [skipCol]
      split
      · rename_i hmem
        apply ih
        have := countP_shift_col m row col hmem
        omega
      · assumption

/-- The fuel `occLen m + 1` the renderer passes always suffices: the
skip stops at the first unoccupied column, as the source loop does. -/
theorem skipCol_free (m : Occ) (row col : Nat) :
    (row, skipCol m row (occLen m + 1) col) ∉ m := by
  apply skipCol_spec
  have h : m.countP (fun p => decide (p.1 = row ∧ col ≤ p.2)) ≤ m.length :=
    List.countP_le_length _
  unfold occLen
  omega

theorem countP_shift_row (m : List (Nat × Nat)) (row col : Nat)
    (hmem : (row, col) ∈ m) :
    m.countP (fun p => decide (p.2 = col ∧ row + 1 ≤ p.1)) + 1 ≤
      m.countP (fun p => decide (p.2 = col ∧ row ≤ p.1)) := by
  induction m with
  | nil => simp at hmem
  | cons x xs ih =>
      have hmono : xs.countP (fun p => decide (p.2 = col ∧ row + 1 ≤ p.1)) ≤
          xs.countP (fun p => decide (p.2 = col ∧ row ≤ p.1)) := by
        apply List.countP_mono_left
        intro a _ ha
        simp only [decide_eq_true_eq] at ha ⊢
        omega
      rcases List.mem_cons.mp hmem with rfl | hmem
      · simp only [List.countP_cons]
        split <;> split <;> (try simp_all) <;> omega
      · have := ih hmem
        simp only [List.countP_cons]
        split <;> split <;> (try simp_all) <;> omega

/-- Row analogue of `skipCol_spec`. -/
theorem skipRow_spec (m : Occ) (col : Nat) :
    ∀ fuel row, m.countP (fun p => decide (p.2 = col ∧ row ≤ p.1)) < fuel →
      (skipRow m col fuel row, col) ∉ m := by
  intro fuel
  induction fuel with
  | zero => intro row h; omega
  | succ f ih =>
      intro row h
      simp only [skipRow]
      split
      · rename_i hmem
        apply ih
        have := countP_shift_row m row col hmem
        omega
      · assumption

/-- Row analogue of `skipCol_free`. -/
theorem skipRow_free (m : Occ) (row col : Nat) :
    (skipRow m col (occLen m + 1) row, col) ∉ m := by
  apply skipRow_spec
  have h : m.countP (fun p => decide (p.2 = col ∧ row ≤ p.1)) ≤ m.length :=
    List.countP_le_length _
  unfold occLen
  omega

theorem one_le_orOne (n : Nat) : 1 ≤ orOne n := by
  unfold orOne; split <;> omega

theorem orOne_of_pos {n : Nat} (h : 1 ≤ n) : orOne n = n := by
  unfold orOne; split <;> omega

/-! ## Band structure of good trees

For trees in which every stack has at least one child (and every leaf
has the constructor-validated positive spans), a stack's children
occupy pairwise disjoint column bands (HStack) or row bands (VStack).
The three statements below are proved by mutual induction over the
tree / child-list structure. -/

mutual

theorem renderNode_good (t : LNode) (h : goodTreeB t = true)
    (p : Pos) (sty : StyleV) (m : Occ) :
    (renderNode t p sty m).1 ≠ [] ∧
    (∀ c ∈ (renderNode t p sty m).1, cellFrom p.row p.col c) ∧
    ((renderNode t p sty m).1).Pairwise cellsDisjoint := by
  cases t with
  | cellN props =>
      simp only [goodTreeB, Bool.and_eq_true, decide_eq_true_eq] at h
      refine ⟨by simp [renderNode], ?_, by simp [renderNode]⟩
      intro c hc
      simp only [renderNode, List.mem_singleton] at hc
      subst hc
      exact ⟨le_refl _, le_refl _, h.1, h.2⟩
  | hstackN ch st =>
      simp only [goodTreeB, Bool.and_eq_true, Bool.not_eq_true',
        List.isEmpty_eq_false] at h
      have H := renderH_good ch h.2 p.row p.col
        (match st with | some s => mergeStyles sty s | none => sty) m
      exact ⟨H.1 h.1, H.2.1, H.2.2⟩
  | vstackN ch st =>
      simp only [goodTreeB, Bool.and_eq_true, Bool.not_eq_true',
        List.isEmpty_eq_false] at h
      have H := renderV_good ch h.2 p.row p.col
        (match st with | some s => mergeStyles sty s | none => sty) m
      exact ⟨H.1 h.1, H.2.1, H.2.2⟩

theorem renderH_good (ts : List LNode) (h : goodListB ts = true)
    (row col : Nat) (sty : StyleV) (m : Occ) :
    (ts ≠ [] → (renderH ts row col sty m).1 ≠ []) ∧
    (∀ c ∈ (renderH ts row col sty m).1, cellFrom row col c) ∧
    ((renderH ts row col sty m).1).Pairwise cellsDisjoint := by
  cases ts with
  | nil =>
      exact ⟨fun hne => absurd rfl hne, by simp [renderH], by simp [renderH]⟩
  | cons child rest =>
      simp only [goodListB, Bool.and_eq_true] at h
      simp only [renderH]
      have Hnode := renderNode_good child h.1
        ⟨row, skipCol m row (occLen m + 1) col⟩ sty m
      dsimp only at Hnode
      set sc := skipCol m row (occLen m + 1) col with hsc
      set A := (renderNode child ⟨row, sc⟩ sty m).1 with hA
      set M2 := (renderNode child ⟨row, sc⟩ sty m).2 with hM2
      set mc := A.foldl (fun acc c => max acc (c.col + orOne c.props.colSpan - 1)) 0
        with hmc
      have Hrest := renderH_good rest h.2 row (mc + 1) sty M2
      have hcolsc : col ≤ sc := hsc ▸ skipCol_ge m row (occLen m + 1) col
      have hmcA : ∀ c ∈ A, c.col + c.props.colSpan ≤ mc + 1 := by
        intro c hc
        have h1 : c.col + orOne c.props.colSpan - 1 ≤ mc := by
          simpa using foldl_max_mem_le
            (fun c => c.col + orOne c.props.colSpan - 1) A 0 c hc
        have h2 := one_le_orOne c.props.colSpan
        have h3 := orOne_of_pos (Hnode.2.1 c hc).2.2.2
        omega
      have hscmc : sc ≤ mc + 1 := by
        obtain ⟨a0, ha0⟩ := List.exists_mem_of_ne_nil _ Hnode.1
        have h1 := hmcA a0 ha0
        have h2 := (Hnode.2.1 a0 ha0).2.1
        have h3 := (Hnode.2.1 a0 ha0).2.2.2
        omega
      refine ⟨fun _ => ?_, ?_, ?_⟩
      · intro hcon
        exact Hnode.1 (List.append_eq_nil.mp hcon).1
      · intro c hc
        rcases List.mem_append.mp hc with hc | hc
        · obtain ⟨h1, h2, h3, h4⟩ := Hnode.2.1 c hc
          exact ⟨h1, le_trans hcolsc h2, h3, h4⟩
        · obtain ⟨h1, h2, h3, h4⟩ := Hrest.2.1 c hc
          exact ⟨h1, by omega, h3, h4⟩
      · rw [List.pairwise_append]
        refine ⟨Hnode.2.2, Hrest.2.2, ?_⟩
        intro a ha b hb
        intro r k hca hcb
        have h1 := hmcA a ha
        have h2 := (Hrest.2.1 b hb).2.1
        obtain ⟨_, _, _, hk⟩ := hca
        obtain ⟨_, _, hbk, _⟩ := hcb
        omega

theorem renderV_good (ts : List LNode) (h : goodListB ts = true)
    (row col : Nat) (sty : StyleV) (m : Occ) :
    (ts ≠ [] → (renderV ts row col sty m).1 ≠ []) ∧
    (∀ c ∈ (renderV ts row col sty m).1, cellFrom row col c) ∧
    ((renderV ts row col sty m).1).Pairwise cellsDisjoint := by
  cases ts with
  | nil =>
      exact ⟨fun hne => absurd rfl hne, by simp [renderV], by simp [renderV]⟩
  | cons child rest =>
      simp only [goodListB, Bool.and_eq_true] at h
      simp only [renderV]
      have Hnode := renderNode_good child h.1
        ⟨skipRow m col (occLen m + 1) row, col⟩ sty m
      dsimp only at Hnode
      set sr := skipRow m col (occLen m + 1) row with hsr
      set A := (renderNode child ⟨sr, col⟩ sty m).1 with hA
      set M2 := (renderNode child ⟨sr, col⟩ sty m).2 with hM2
      set mr := A.foldl (fun acc c => max acc (c.row + orOne c.props.rowSpan - 1)) 0
        with hmr
      have Hrest := renderV_good rest h.2 (mr + 1) col sty M2
      have hrowsr : row ≤ sr := hsr ▸ skipRow_ge m col (occLen m + 1) row
      have hmrA : ∀ c ∈ A, c.row + c.props.rowSpan ≤ mr + 1 := by
        intro c hc
        have h1 : c.row + orOne c.props.rowSpan - 1 ≤ mr := by
          simpa using foldl_max_mem_le
            (fun c => c.row + orOne c.props.rowSpan - 1) A 0 c hc
        have h2 := one_le_orOne c.props.rowSpan
        have h3 := orOne_of_pos (Hnode.2.1 c hc).2.2.1
        omega
      have hsrmr : sr ≤ mr + 1 := by
        obtain ⟨a0, ha0⟩ := List.exists_mem_of_ne_nil _ Hnode.1
        have h1 := hmrA a0 ha0
        have h2 := (Hnode.2.1 a0 ha0).1
        have h3 := (Hnode.2.1 a0 ha0).2.2.1
        omega
      refine ⟨fun _ => ?_, ?_, ?_⟩
      · intro hcon
        exact Hnode.1 (List.append_eq_nil.mp hcon).1
      · intro c hc
        rcases List.mem_append.mp hc with hc | hc
        · obtain ⟨h1, h2, h3, h4⟩ := Hnode.2.1 c hc
          exact ⟨le_trans hrowsr h1, h2, h3, h4⟩
        · obtain ⟨h1, h2, h3, h4⟩ := Hrest.2.1 c hc
          exact ⟨by omega, h2, h3, h4⟩
      · rw [List.pairwise_append]
        refine ⟨Hnode.2.2, Hrest.2.2, ?_⟩
        intro a ha b hb
        intro r k hca hcb
        have h1 := hmrA a ha
        have h2 := (Hrest.2.1 b hb).1
        obtain ⟨_, hk, _, _⟩ := hca
        obtain ⟨hbk, _, _, _⟩ := hcb
        omega

end

theorem mem_getD_flatten {α : Type} {L : List (List α)} {j : Nat} {b : α}
    (hb : b ∈ L[j]?.getD []) : b ∈ L.flatten := by
  cases hL : L[j]? with
  | none => rw [hL] at hb; simp at hb
  | some g =>
      rw [hL] at hb
      exact List.mem_flatten.mpr ⟨g, List.getElem?_mem hL, hb⟩

/-- The per-child grouping flattens to the HStack's resolved cells. -/
theorem groupsH_flatten (ts : List LNode) :
    ∀ (row col : Nat) (sty : StyleV) (m : Occ),
      (groupsH ts row col sty m).flatten = (renderH ts row col sty m).1 := by
  induction ts with
  | nil => intro row col sty m; simp [groupsH, renderH]
  | cons child rest ih =>
      intro row col sty m
      simp only [groupsH, renderH, List.flatten_cons, ih]

/-- The per-child grouping flattens to the VStack's resolved cells. -/
theorem groupsV_flatten (ts : List LNode) :
    ∀ (row col : Nat) (sty : StyleV) (m : Occ),
      (groupsV ts row col sty m).flatten = (renderV ts row col sty m).1 := by
  induction ts with
  | nil => intro row col sty m; simp [groupsV, renderV]
  | cons child rest ih =>
      intro row col sty m
      simp only [groupsV, renderV, List.flatten_cons, ih]

/-- Column bands of an HStack's direct children (no empty containers):
any column covered by a cell of an earlier child group is strictly left
of any column covered by a cell of a later child group. -/
theorem groupsH_ordered (ts : List LNode) (h : goodListB ts = true) :
    ∀ (row col : Nat) (sty : StyleV) (m : Occ) (i j : Nat), i < j →
      ∀ a ∈ (groupsH ts row col sty m)[i]?.getD [],
      ∀ b ∈ (groupsH ts row col sty m)[j]?.getD [],
      ∀ k k', coversColumn a k → coversColumn b k' → k < k' := by
  induction ts with
  | nil =>
      intro row col sty m i j hij a ha
      simp [groupsH] at ha
  | cons child rest ih =>
      simp only [goodListB, Bool.and_eq_true] at h
      intro row col sty m i j hij a ha b hb k k' hk hk'
      simp only [groupsH] at ha hb
      have Hnode := renderNode_good child h.1
        ⟨row, skipCol m row (occLen m + 1) col⟩ sty m
      dsimp only at Hnode
      set sc := skipCol m row (occLen m + 1) col with hsc
      set A := (renderNode child ⟨row, sc⟩ sty m).1 with hA
      set M2 := (renderNode child ⟨row, sc⟩ sty m).2 with hM2
      set mc := A.foldl (fun acc c => max acc (c.col + orOne c.props.colSpan - 1)) 0
        with hmc
      cases i with
      | zero =>
          cases j with
          | zero => omega
          | succ j' =>
              simp only [List.getElem?_cons_zero, Option.getD_some] at ha
              simp only [List.getElem?_cons_succ] at hb
              have hmcA : a.col + a.props.colSpan ≤ mc + 1 := by
                have h1 : a.col + orOne a.props.colSpan - 1 ≤ mc := by
                  simpa using foldl_max_mem_le
                    (fun c => c.col + orOne c.props.colSpan - 1) A 0 a ha
                have h2 := one_le_orOne a.props.colSpan
                have h3 := orOne_of_pos (Hnode.2.1 a ha).2.2.2
                omega
              have hbj : b ∈ (renderH rest row (mc + 1) sty M2).1 := by
                rw [← groupsH_flatten]
                exact mem_getD_flatten hb
              have hbb := ((renderH_good rest h.2 row (mc + 1) sty M2).2.1 b hbj).2.1
              obtain ⟨_, hka⟩ := hk
              obtain ⟨hkb, _⟩ := hk'
              omega
      | succ i' =>
          cases j with
          | zero => omega
          | succ j' =>
              simp only [List.getElem?_cons_succ] at ha hb
              exact ih h.2 row (mc + 1) sty M2 i' j' (by omega) a ha b hb k k' hk hk'

/-- Row bands of a VStack's direct children, symmetric to
`groupsH_ordered`. -/
theorem groupsV_ordered (ts : List LNode) (h : goodListB ts = true) :
    ∀ (row col : Nat) (sty : StyleV) (m : Occ) (i j : Nat), i < j →
      ∀ a ∈ (groupsV ts row col sty m)[i]?.getD [],
      ∀ b ∈ (groupsV ts row col sty m)[j]?.getD [],
      ∀ k k', coversRow a k → coversRow b k' → k < k' := by
  induction ts with
  | nil =>
      intro row col sty m i j hij a ha
      simp [groupsV] at ha
  | cons child rest ih =>
      simp only [goodListB, Bool.and_eq_true] at h
      intro row col sty m i j hij a ha b hb k k' hk hk'
      simp only [groupsV] at ha hb
      have Hnode := renderNode_good child h.1
        ⟨skipRow m col (occLen m + 1) row, col⟩ sty m
      dsimp only at Hnode
      set sr := skipRow m col (occLen m + 1) row with hsr
      set A := (renderNode child ⟨sr, col⟩ sty m).1 with hA
      set M2 := (renderNode child ⟨sr, col⟩ sty m).2 with hM2
      set mr := A.foldl (fun acc c => max acc (c.row + orOne c.props.rowSpan - 1)) 0
        with hmr
      cases i with
      | zero =>
          cases j with
          | zero => omega
          | succ j' =>
              simp only [List.getElem?_cons_zero, Option.getD_some] at ha
              simp only [List.getElem?_cons_succ] at hb
              have hmrA : a.row + a.props.rowSpan ≤ mr + 1 := by
                have h1 : a.row + orOne a.props.rowSpan - 1 ≤ mr := by
                  simpa using foldl_max_mem_le
                    (fun c => c.row + orOne c.props.rowSpan - 1) A 0 a ha
                have h2 := one_le_orOne a.props.rowSpan
                have h3 := orOne_of_pos (Hnode.2.1 a ha).2.2.1
                omega
              have hbj : b ∈ (renderV rest (mr + 1) col sty M2).1 := by
                rw [← groupsV_flatten]
                exact mem_getD_flatten hb
              have hbb := ((renderV_good rest h.2 (mr + 1) col sty M2).2.1 b hbj).1
              obtain ⟨_, hka⟩ := hk
              obtain ⟨hkb, _⟩ := hk'
              omega
      | succ i' =>
          cases j with
          | zero => omega
          | succ j' =>
              simp only [List.getElem?_cons_succ] at ha hb
              exact ih h.2 (mr + 1) col sty M2 i' j' (by omega) a ha b hb k k' hk hk'

/-! ## Reading back the grids filled for one span -/

theorem spanOffsets_mem {rs cs ro co : Nat} :
    (ro, co) ∈ spanOffsets rs cs ↔ ro < rs ∧ co < cs := by
  simp [spanOffsets, List.mem_flatMap, List.mem_map, List.mem_range]

theorem spanOffsets_nodup (rs cs : Nat) : (spanOffsets rs cs).Nodup := by
  have h : spanOffsets rs cs = (List.range rs).product (List.range cs) := rfl
  rw [h]
  exact (List.nodup_range rs).product (List.nodup_range cs)

theorem writeSub_other (g : GridsAcc) (cd : CellData) (r c ro co rs cs r' c' : Nat)
    (h : ¬(r' = r ∧ c' = c)) :
    (writeSub g cd r c ro co rs cs).values r' c' = g.values r' c' ∧
    (writeSub g cd r c ro co rs cs).notes r' c' = g.notes r' c' := by
  constructor <;> simp [writeSub, gset, h]

theorem fill_preserve (cd : CellData) (rs cs baseR baseC : Nat)
    (l : List (Nat × Nat)) (ro co : Nat) (hl : (ro, co) ∉ l) :
    ∀ g : GridsAcc,
      ((l.foldl (fun acc rc =>
          writeSub acc cd (baseR + rc.1) (baseC + rc.2) rc.1 rc.2 rs cs) g).values
        (baseR + ro) (baseC + co) = g.values (baseR + ro) (baseC + co)) ∧
      ((l.foldl (fun acc rc =>
          writeSub acc cd (baseR + rc.1) (baseC + rc.2) rc.1 rc.2 rs cs) g).notes
        (baseR + ro) (baseC + co) = g.notes (baseR + ro) (baseC + co)) := by
  induction l with
  | nil => intro g; exact ⟨rfl, rfl⟩
  | cons x xs ih =>
      intro g
      have hx : (ro, co) ≠ x ∧ (ro, co) ∉ xs := by
        simpa [List.mem_cons, not_or] using hl
      have hpos : ¬(baseR + ro = baseR + x.1 ∧ baseC + co = baseC + x.2) := by
        intro hcon
        apply hx.1
        cases x with
        | mk x1 x2 =>
            simp only [Prod.mk.injEq]
            omega
      have hw := writeSub_other g cd (baseR + x.1) (baseC + x.2) x.1 x.2 rs cs
        (baseR + ro) (baseC + co) hpos
      have hi := ih hx.2 (writeSub g cd (baseR + x.1) (baseC + x.2) x.1 x.2 rs cs)
      exact ⟨hi.1.trans hw.1, hi.2.trans hw.2⟩

theorem fill_read (cd : CellData) (rs cs baseR baseC : Nat)
    (l : List (Nat × Nat)) (ro co : Nat) (hnd : l.Nodup) (hmem : (ro, co) ∈ l) :
    ∀ g : GridsAcc,
      ((l.foldl (fun acc rc =>
          writeSub acc cd (baseR + rc.1) (baseC + rc.2) rc.1 rc.2 rs cs) g).values
        (baseR + ro) (baseC + co) =
          (if ro = 0 ∧ co = 0 then cd.value else .str "")) ∧
      ((l.foldl (fun acc rc =>
          writeSub acc cd (baseR + rc.1) (baseC + rc.2) rc.1 rc.2 rs cs) g).notes
        (baseR + ro) (baseC + co) = some cd.note) := by
  induction l with
  | nil => simp at hmem
  | cons x xs ih =>
      intro g
      rcases List.mem_cons.mp hmem with hx | hx
      · subst hx
        have hnotin : (ro, co) ∉ xs := (List.nodup_cons.mp hnd).1
        have hp := fill_preserve cd rs cs baseR baseC xs ro co hnotin
          (writeSub g cd (baseR + ro) (baseC + co) ro co rs cs)
        refine ⟨hp.1.trans ?_, hp.2.trans ?_⟩
        · simp [writeSub, gset]
        · simp [writeSub, gset]
      · exact ih (List.nodup_cons.mp hnd).2 hx _

/-! ## Shape and phase of the calls in each commit segment -/

theorem mem_borderSideCalls {range : Rect} {bi : BInfo} {x : Call}
    (hx : x ∈ borderSideCalls range bi) :
    ∃ t l b r col th, x = .setBorder range t l b r col th := by
  obtain ⟨bt, bb, bl, br⟩ := bi
  simp only [borderSideCalls, List.mem_append] at hx
  rcases hx with ((hx | hx) | hx) | hx
  · cases bt <;> simp at hx
    exact ⟨_, _, _, _, _, _, hx⟩
  · cases bl <;> simp at hx
    exact ⟨_, _, _, _, _, _, hx⟩
  · cases bb <;> simp at hx
    exact ⟨_, _, _, _, _, _, hx⟩
  · cases br <;> simp at hx
    exact ⟨_, _, _, _, _, _, hx⟩

theorem mem_perCellCalls {mr mc nr nc : Nat} {rot : Grid Int}
    {bor : Grid (Option BInfo)} {x : Call}
    (hx : x ∈ perCellCalls mr mc nr nc rot bor) :
    (∃ r c a, x = .setTextRotation ⟨mr + r, mc + c, 1, 1⟩ a) ∨
    (∃ r c t l b rr col th, x = .setBorder ⟨mr + r, mc + c, 1, 1⟩ t l b rr col th) := by
  simp only [perCellCalls, List.mem_flatMap, List.mem_range] at hx
  obtain ⟨r, _, c, _, hx⟩ := hx
  rcases List.mem_append.mp hx with hx | hx
  · split at hx
    · simp at hx
      exact Or.inl ⟨r, c, _, hx⟩
    · simp at hx
  · revert hx
    cases hb : bor r c with
    | none => intro hx; simp at hx
    | some bi =>
        intro hx
        obtain ⟨t, l, b, rr, col, th, rfl⟩ := mem_borderSideCalls hx
        exact Or.inr ⟨r, c, t, l, b, rr, col, th, rfl⟩

theorem phase_bulkCalls (g : GridsAcc) : ∀ x ∈ bulkCalls g, phaseOf x = 1 := by
  intro x hx
  simp only [bulkCalls, List.mem_cons, List.not_mem_nil, or_false] at hx
  rcases hx with rfl | rfl | rfl | rfl | rfl | rfl | rfl | rfl | rfl | rfl | rfl | rfl | rfl <;>
    rfl

theorem phase_dimensionCalls (g : GridsAcc) :
    ∀ x ∈ dimensionCalls g, phaseOf x = 2 := by
  intro x hx
  rcases List.mem_append.mp hx with hx | hx <;>
  · obtain ⟨p, _, rfl⟩ := List.mem_map.mp hx
    rfl

theorem phase_perCellCalls {mr mc nr nc : Nat} {rot : Grid Int}
    {bor : Grid (Option BInfo)} :
    ∀ x ∈ perCellCalls mr mc nr nc rot bor, phaseOf x = 3 := by
  intro x hx
  rcases mem_perCellCalls hx with ⟨_, _, _, rfl⟩ | ⟨_, _, _, _, _, _, _, _, rfl⟩ <;> rfl

theorem phase_cfCalls (g : GridsAcc) : ∀ x ∈ cfCalls g, phaseOf x = 4 := by
  intro x hx
  unfold cfCalls at hx
  split at hx
  · simp at hx
  · simp at hx
    subst hx
    rfl

theorem phase_mergeCalls (g : GridsAcc) : ∀ x ∈ mergeCalls g, phaseOf x = 5 := by
  intro x hx
  obtain ⟨p, _, rfl⟩ := List.mem_map.mp hx
  rfl

theorem isSetBorder_phase {x : Call} (h : isSetBorder x = true) : phaseOf x = 3 := by
  cases x <;> simp [isSetBorder] at h <;> rfl

theorem isSetCFR_phase {x : Call} (h : isSetCFR x = true) : phaseOf x = 4 := by
  cases x <;> simp [isSetCFR] at h <;> rfl

theorem phaseOf_le_five (x : Call) : phaseOf x ≤ 5 := by
  cases x <;> simp [phaseOf]

theorem sorted_phases_const {l : List Call} {k : Nat}
    (h : ∀ x ∈ l, phaseOf x = k) : (l.map phaseOf).Sorted (· ≤ ·) := by
  induction l with
  | nil => simp
  | cons x xs ih =>
      rw [List.map_cons, List.sorted_cons]
      refine ⟨?_, ih (fun y hy => h y (List.mem_cons_of_mem x hy))⟩
      intro b hb
      obtain ⟨y, hy, rfl⟩ := List.mem_map.mp hb
      rw [h x (List.mem_cons_self x xs), h y (List.mem_cons_of_mem x hy)]

theorem sorted_phases_append (k : Nat) {l1 l2 : List Call}
    (h1 : ∀ x ∈ l1, phaseOf x ≤ k) (h2 : ∀ x ∈ l2, k ≤ phaseOf x)
    (s1 : (l1.map phaseOf).Sorted (· ≤ ·)) (s2 : (l2.map phaseOf).Sorted (· ≤ ·)) :
    (((l1 ++ l2).map phaseOf)).Sorted (· ≤ ·) := by
  rw [List.map_append]
  apply List.pairwise_append.mpr
  refine ⟨s1, s2, ?_⟩
  intro a ha b hb
  obtain ⟨xa, hxa, rfl⟩ := List.mem_map.mp ha
  obtain ⟨xb, hxb, rfl⟩ := List.mem_map.mp hb
  exact le_trans (h1 xa hxa) (h2 xb hxb)

theorem isSetBorder_false_of_phase {x : Call} (h : phaseOf x ≠ 3) :
    isSetBorder x = false := by
  cases hb : isSetBorder x
  · rfl
  · exact absurd (isSetBorder_phase hb) h

theorem isSetCFR_false_of_phase {x : Call} (h : phaseOf x ≠ 4) :
    isSetCFR x = false := by
  cases hb : isSetCFR x
  · rfl
  · exact absurd (isSetCFR_phase hb) h

theorem borderIs1x1_of_not_border {x : Call} (h : isSetBorder x = false) :
    borderIs1x1 x = true := by
  cases x <;> simp [isSetBorder, borderIs1x1] at h ⊢

theorem countP_isSetCFR_zero {l : List Call} (h : ∀ x ∈ l, phaseOf x ≠ 4) :
    l.countP isSetCFR = 0 :=
  List.countP_eq_zero.mpr (fun x hx hcf => h x hx (isSetCFR_phase hcf))

theorem countP_zero_of_false {l : List Call} {p : Call → Bool}
    (h : ∀ x ∈ l, p x = false) : l.countP p = 0 :=
  List.countP_eq_zero.mpr (fun a ha => by rw [h a ha]; simp)

theorem rulesAfter_append (pre : List CFRule) (l1 l2 : List Call) :
    rulesAfter pre (l1 ++ l2) = rulesAfter (rulesAfter pre l1) l2 := by
  simp [rulesAfter, List.foldl_append]

theorem rulesAfter_no {pre : List CFRule} {l : List Call}
    (h : ∀ x ∈ l, isSetCFR x = false) : rulesAfter pre l = pre := by
  induction l generalizing pre with
  | nil => rfl
  | cons x xs ih =>
      have hx : ruleStep pre x = pre := by
        have hh := h x (List.mem_cons_self x xs)
        cases x <;> simp_all [isSetCFR, ruleStep]
      have : rulesAfter pre (x :: xs) = rulesAfter (ruleStep pre x) xs := rfl
      rw [this, hx]
      exact ih (fun y hy => h y (List.mem_cons_of_mem x hy))

/-! ## Collection of conditional-format rules by `buildGrids` -/

theorem writeSubFold_cf (cd : CellData) (rs cs baseR baseC : Nat)
    (l : List (Nat × Nat)) :
    ∀ g : GridsAcc,
      (l.foldl (fun acc rc =>
        writeSub acc cd (baseR + rc.1) (baseC + rc.2) rc.1 rc.2 rs cs) g).conditionalFormats =
      g.conditionalFormats := by
  induction l with
  | nil => intro g; rfl
  | cons x xs ih =>
      intro g
      rw [List.foldl_cons, ih]
      rfl

theorem processCell_cf (mr mc : Nat) (g : GridsAcc) (cell : RCell) :
    (processCell mr mc g cell).conditionalFormats =
      g.conditionalFormats ++
        (getRenderDirectives cell.props.ctype
          ⟨cell.row, cell.col, cell.props.rowSpan, cell.props.colSpan⟩).conditionalFormatRules := by
  simp only [processCell]
  split <;> rw [writeSubFold_cf]

theorem buildGrids_cf_fold (cells : List RCell) (mr mc : Nat) :
    ∀ g : GridsAcc,
      (cells.foldl (processCell mr mc) g).conditionalFormats =
        g.conditionalFormats ++ collectedRules cells := by
  induction cells with
  | nil => intro g; simp [collectedRules]
  | cons c cs ih =>
      intro g
      rw [List.foldl_cons, ih, processCell_cf]
      simp [collectedRules]

theorem buildGrids_cf (cells : List RCell) (mr mc : Nat) :
    (buildGrids cells mr mc).conditionalFormats = collectedRules cells := by
  unfold buildGrids
  rw [buildGrids_cf_fold]
  rfl

theorem phase_clear_mem (r : Rect) : ∀ x ∈ [Call.clear r], phaseOf x = 0 := by
  intro x hx
  simp at hx
  subst hx
  rfl

/-- The bounding box of a non-empty list of positive-span cells is
non-degenerate: neither computed dimension is zero. -/
theorem commit_dims_pos (c0 : RCell) (rest : List RCell)
    (hspan : ∀ c ∈ c0 :: rest, 1 ≤ c.props.rowSpan ∧ 1 ≤ c.props.colSpan) :
    ¬((c0 :: rest).foldl (fun a c => max a (c.row + c.props.rowSpan - 1)) 0 + 1 -
        (c0 :: rest).foldl (fun a c => min a c.row) c0.row = 0 ∨
      (c0 :: rest).foldl (fun a c => max a (c.col + c.props.colSpan - 1)) 0 + 1 -
        (c0 :: rest).foldl (fun a c => min a c.col) c0.col = 0) := by
  have hminr : (c0 :: rest).foldl (fun a c => min a c.row) c0.row ≤ c0.row := by
    simpa using foldl_min_le_init (fun c : RCell => c.row) (c0 :: rest) c0.row
  have hmaxr : c0.row + c0.props.rowSpan - 1 ≤
      (c0 :: rest).foldl (fun a c => max a (c.row + c.props.rowSpan - 1)) 0 := by
    simpa using foldl_max_mem_le (fun c : RCell => c.row + c.props.rowSpan - 1)
      (c0 :: rest) 0 c0 (List.mem_cons_self c0 rest)
  have hminc : (c0 :: rest).foldl (fun a c => min a c.col) c0.col ≤ c0.col := by
    simpa using foldl_min_le_init (fun c : RCell => c.col) (c0 :: rest) c0.col
  have hmaxc : c0.col + c0.props.colSpan - 1 ≤
      (c0 :: rest).foldl (fun a c => max a (c.col + c.props.colSpan - 1)) 0 := by
    simpa using foldl_max_mem_le (fun c : RCell => c.col + c.props.colSpan - 1)
      (c0 :: rest) 0 c0 (List.mem_cons_self c0 rest)
  have hs := hspan c0 (List.mem_cons_self c0 rest)
  omega

/-! ## Claim C2 — style-merge precedence -/

/-! ## Claim C2 — style-merge precedence -/

/-- C2: for every pair of styles A (parent) and B (child),
`Renderer._mergeStyles(A, B)` takes the child's value for every
scalar and group field (in particular `font.bold`), while for width and
height the parent's explicit non-null value wins over the child's,
falling back to the child's value, else null. -/
theorem C2_style_merge_precedence (A B : StyleV) :
    (mergeStyles A B).backgroundColor = B.backgroundColor ∧
    (mergeStyles A B).font = B.font ∧
    (mergeStyles A B).alignment = B.alignment ∧
    (mergeStyles A B).wrap = B.wrap ∧
    (mergeStyles A B).border = B.border ∧
    (mergeStyles A B).rotationAngle = B.rotationAngle ∧
    (mergeStyles A B).width = (if A.width.isSome then A.width else B.width) ∧
    (mergeStyles A B).height = (if A.height.isSome then A.height else B.height) := by
  refine ⟨rfl, rfl, rfl, rfl, rfl, rfl, ?_, ?_⟩
  · cases h : A.width <;> simp [mergeStyles, h]
  · cases h : A.height <;> simp [mergeStyles, h]

/-! ## Claim C10 — dropdown default selection -/

/-- C10: a `Dropdown` built from a non-empty candidate list with
`selected` omitted or null constructs successfully and stores the first
candidate's plain value; the membership check runs only for a truthy
`selected`, so the falsy empty string also skips it. -/
theorem C10_dropdown_default_selection (v : DItem) (vs : List DItem)
    (h : objArrayOk (v :: vs) = true) :
    (∃ props, dropdownNew (v :: vs) none = .ok props ∧
      props.value = .plain v.str) ∧
    (∃ props, dropdownNew (v :: vs) (some "") = .ok props) := by
  unfold objArrayOk at h
  cases v with
  | plain s =>
      exact ⟨⟨_, rfl, rfl⟩, ⟨_, rfl⟩⟩
  | styled s st =>
      simp only [List.head?_cons] at h
      refine ⟨?_, ?_⟩ <;>
        simp [dropdownNew, selectedTruthy, DItem.str, h]

/-- Witness for C10 at a concrete candidate list. -/
theorem C10_witness :
    objArrayOk [DItem.plain "a", DItem.plain "b"] = true ∧
    ((∃ props, dropdownNew [DItem.plain "a", DItem.plain "b"] none = .ok props ∧
        props.value = .plain (DItem.plain "a").str) ∧
     (∃ props, dropdownNew [DItem.plain "a", DItem.plain "b"] (some "") = .ok props)) :=
  ⟨by decide, C10_dropdown_default_selection (.plain "a") [.plain "b"] (by decide)⟩

/-! ## Claim C9 — empty render is a silent no-op -/

/-- C9: a `VStack` or `HStack` with zero children resolves to an empty
ResolvedCell list, and committing an empty list issues no surface call
at all, so the whole pipeline emits nothing. -/
theorem C9_empty_render_noop :
    (∀ (p : Pos) (sty : StyleV) (m : Occ),
      (renderNode (.vstackN [] none) p sty m).1 = [] ∧
      (renderNode (.hstackN [] none) p sty m).1 = []) ∧
    commitCalls [] = [] ∧
    renderProgram (.vstackN [] none) = [] ∧
    renderProgram (.hstackN [] none) = [] := by
  refine ⟨fun p sty m => ⟨?_, ?_⟩, rfl, ?_, ?_⟩ <;>
    simp [renderNode, renderH, renderV, renderProgram, resolveRoot, commitCalls]

/-! ## Claim C5 — span collision deflection scenario -/

/-- C5 counterexample: rendering the scenario tree from `(1,1)` places
the second HStack's first leaf (the third resolved cell) at `(3,1)`,
not at the claimed `(2,2)`. -/
theorem C5_counterexample :
    (resolveRoot c5tree).map (fun c => (c.row, c.col)) =
      [(1, 1), (1, 2), (3, 1), (3, 2)] ∧
    ((resolveRoot c5tree).map (fun c => (c.row, c.col)))[2]? ≠ some (2, 2) := by
  decide

/-- C5 as amended: the second HStack's first leaf lands at `(3,1)`.  The
VStack advances its cursor to `childMaxRow + 1 = 3`, one past the bottom
row of the rowSpan-2 leaf, so the second HStack starts below the spanned
rows and no collision deflection occurs. -/
theorem C5_scenario_lands_at_3_1 :
    ((resolveRoot c5tree).map (fun c => (c.row, c.col)))[2]? = some (3, 1) := by
  decide

/-! ## Claim C1 — no-overlap -/

/-- C1 counterexample: the resolver accepts `c1tree`, but the spans of
its second and third ResolvedCells both cover the coordinate `(2,2)`,
so the full-span extents are not pairwise disjoint. -/
theorem C1_counterexample : ¬ (resolveRoot c1tree).Pairwise cellsDisjoint := by
  intro hp
  have h := List.pairwise_iff_getElem.mp hp 1 2 (by decide) (by decide) (by decide)
  exact h 2 2 (by decide) (by decide)

/-- C1 as amended: for every layout tree accepted by the resolver in
which every stack has at least one child (no empty containers — the
counterexample shows an empty container resets the stack cursor and
breaks the invariant), the full-span extents of the ResolvedCells of
one render call are pairwise disjoint, from any start position,
inherited style and pre-existing occupancy set. -/
theorem C1_no_overlap (t : LNode) (h : goodTreeB t = true)
    (p : Pos) (sty : StyleV) (m : Occ) :
    ((renderNode t p sty m).1).Pairwise cellsDisjoint :=
  (renderNode_good t h p sty m).2.2

/-- Witness for C1 at the concrete scenario tree. -/
theorem C1_witness :
    goodTreeB c5tree = true ∧
    ((renderNode c5tree ⟨1, 1⟩ defaultStyle []).1).Pairwise cellsDisjoint :=
  ⟨by decide, C1_no_overlap c5tree (by decide) ⟨1, 1⟩ defaultStyle []⟩

/-! ## Claim C4 — span blanking -/

/-- C4 counterexample: in the grids built by the commit engine for a
2 x 2 cell, the non-top-left sub-cell `(0,1)` holds the empty string in
the value grid but the full literal note — not an empty placeholder —
in the note grid. -/
theorem C4_counterexample :
    (buildGrids [c4cell] 1 1).values 0 1 = .str "" ∧
    (buildGrids [c4cell] 1 1).notes 0 1 = some "n" ∧
    (buildGrids [c4cell] 1 1).notes 0 1 ≠ some "" ∧
    (buildGrids [c4cell] 1 1).notes 0 1 ≠ none := by
  decide

/-- C4 as amended: for a committed cell with rowSpan r >= 1 and colSpan
c >= 1, only the top-left sub-cell of its span receives the literal
value and every other sub-cell receives the empty string in the value
grid; the note, however, is written to every sub-cell of the span — the
note grid is not blanked.  (Stated for a single-cell commit, where no
other cell's writes can interfere.) -/
theorem C4_span_blanking (c : RCell) (ro co : Nat)
    (hro : ro < c.props.rowSpan) (hco : co < c.props.colSpan) :
    (buildGrids [c] c.row c.col).values ro co =
      (if ro = 0 ∧ co = 0 then ctypeValue c.props.ctype else .str "") ∧
    (buildGrids [c] c.row c.col).notes ro co = some c.props.note := by
  have hnd := spanOffsets_nodup c.props.rowSpan c.props.colSpan
  have hmem := spanOffsets_mem.mpr ⟨hro, hco⟩
  unfold buildGrids processCell
  simp only [List.foldl_cons, List.foldl_nil]
  split
  · constructor
    · conv_lhs =>
        rw [show ro = c.row - c.row + ro from by omega,
            show co = c.col - c.col + co from by omega]
      exact (fill_read _ _ _ _ _ _ ro co hnd hmem _).1
    · conv_lhs =>
        rw [show ro = c.row - c.row + ro from by omega,
            show co = c.col - c.col + co from by omega]
      exact (fill_read _ _ _ _ _ _ ro co hnd hmem _).2
  · constructor
    · conv_lhs =>
        rw [show ro = c.row - c.row + ro from by omega,
            show co = c.col - c.col + co from by omega]
      exact (fill_read _ _ _ _ _ _ ro co hnd hmem _).1
    · conv_lhs =>
        rw [show ro = c.row - c.row + ro from by omega,
            show co = c.col - c.col + co from by omega]
      exact (fill_read _ _ _ _ _ _ ro co hnd hmem _).2

/-- Witness for C4 at the concrete 2 x 2 cell and the sub-cell `(0,1)`. -/
theorem C4_witness :
    ((0 : Nat) < c4cell.props.rowSpan ∧ (1 : Nat) < c4cell.props.colSpan) ∧
    ((buildGrids [c4cell] c4cell.row c4cell.col).values 0 1 =
      (if (0 : Nat) = 0 ∧ (1 : Nat) = 0 then ctypeValue c4cell.props.ctype
       else .str "") ∧
     (buildGrids [c4cell] c4cell.row c4cell.col).notes 0 1 =
       some c4cell.props.note) :=
  ⟨⟨by decide, by decide⟩, C4_span_blanking c4cell 0 1 (by decide) (by decide)⟩

/-! ## Claim C6 — border call batching -/

/-- C6 counterexample: two horizontally adjacent cells with identical
border tuples (one maximal run, top side only) would take one bulk
`setBorder` call under run-length encoding, but the commit emits two
calls, one per bordered cell, each on a 1 x 1 range. -/
theorem C6_counterexample :
    (commitCalls [c6a, c6b]).countP isSetBorder = 2 ∧
    (commitCalls [c6a, c6b])[14]? =
      some (.setBorder ⟨1, 1, 1, 1⟩ true false false false "red" .solid) ∧
    (commitCalls [c6a, c6b])[15]? =
      some (.setBorder ⟨1, 2, 1, 1⟩ true false false false "red" .solid) :=
  ⟨rfl, rfl, rfl⟩

/-- C6 as amended: the border-application phase performs no run-length
encoding at all — for every commit, every `setBorder` call it emits
targets a single 1 x 1 sub-cell range (one call per side present per
bordered grid cell), so the number of border calls grows with the
number of bordered cells. -/
theorem C6_borders_per_cell (cells : List RCell) :
    (commitCalls cells).all borderIs1x1 = true := by
  rw [List.all_eq_true]
  intro x hx
  cases cells with
  | nil => simp [commitCalls] at hx
  | cons c0 rest =>
      simp only [commitCalls] at hx
      split at hx
      · simp at hx
      · simp only [List.mem_append] at hx
        rcases hx with ((((hx | hx) | hx) | hx) | hx) | hx
        · simp at hx
          subst hx
          rfl
        · exact borderIs1x1_of_not_border
            (isSetBorder_false_of_phase (by rw [phase_bulkCalls _ x hx]; omega))
        · exact borderIs1x1_of_not_border
            (isSetBorder_false_of_phase (by rw [phase_dimensionCalls _ x hx]; omega))
        · rcases mem_perCellCalls hx with ⟨_, _, _, rfl⟩ | ⟨_, _, _, _, _, _, _, _, rfl⟩ <;>
            rfl
        · exact borderIs1x1_of_not_border
            (isSetBorder_false_of_phase (by rw [phase_cfCalls _ x hx]; omega))
        · exact borderIs1x1_of_not_border
            (isSetBorder_false_of_phase (by rw [phase_mergeCalls _ x hx]; omega))

/-! ## Claim C8 — commit call ordering -/

/-- C8 counterexample: with two rotated, bordered cells, the commit
emits `rotation(1,1), border(1,1), rotation(1,2), border(1,2)` — the
border call at trace index 15 precedes the rotation call at index 16,
so the trace does not consist of all rotation calls followed by all
border calls. -/
theorem C8_counterexample :
    (commitCalls [c8a, c8b])[15]? =
      some (.setBorder ⟨1, 1, 1, 1⟩ true false false false "red" .solid) ∧
    (commitCalls [c8a, c8b])[16]? = some (.setTextRotation ⟨1, 2, 1, 1⟩ 45) :=
  ⟨rfl, rfl⟩

/-- C8 as amended: for every commit the trace follows the phase order
clear → bulk value/style grid writes → column/row dimension calls → a
single per-cell pass that emits rotation and border calls interleaved
cell by cell in row-major order → conditional-format installation →
merges; when any call is issued at all, the first is the clear of the
bounding box.  (Numbering the phases 0-5 with rotations and borders
sharing phase 3, the phase sequence of the trace is monotone.) -/
theorem C8_commit_call_ordering (cells : List RCell) :
    ((commitCalls cells).map phaseOf).Sorted (· ≤ ·) ∧
    (commitCalls cells ≠ [] → ∃ r, (commitCalls cells).head? = some (.clear r)) := by
  have hcomb : ∀ {l1 l2 : List Call} {k : Nat},
      (∀ x ∈ l1, phaseOf x ≤ k) → (∀ x ∈ l2, phaseOf x ≤ k) →
      ∀ x ∈ l1 ++ l2, phaseOf x ≤ k :=
    fun h1 h2 x hx => (List.mem_append.mp hx).elim (h1 x) (h2 x)
  have hclear : ∀ (r : Rect) (x : Call), x ∈ [Call.clear r] → phaseOf x = 0 := by
    intro r x hx
    simp at hx
    subst hx
    rfl
  refine ⟨?_, ?_⟩
  · cases cells with
    | nil => simp [commitCalls]
    | cons c0 rest =>
        simp only [commitCalls]
        split
        · simp
        · apply sorted_phases_append 5
          · intro x _
            exact phaseOf_le_five x
          · intro x hx
            rw [phase_mergeCalls _ x hx]
          · apply sorted_phases_append 4
            · apply hcomb
              · apply hcomb
                · apply hcomb
                  · intro x hx
                    rw [hclear _ x hx]
                    omega
                  · intro x hx
                    rw [phase_bulkCalls _ x hx]
                    omega
                · intro x hx
                  rw [phase_dimensionCalls _ x hx]
                  omega
              · intro x hx
                rw [phase_perCellCalls x hx]
                omega
            · intro x hx
              rw [phase_cfCalls _ x hx]
            · apply sorted_phases_append 3
              · apply hcomb
                · apply hcomb
                  · intro x hx
                    rw [hclear _ x hx]
                    omega
                  · intro x hx
                    rw [phase_bulkCalls _ x hx]
                    omega
                · intro x hx
                  rw [phase_dimensionCalls _ x hx]
                  omega
              · intro x hx
                rw [phase_perCellCalls x hx]
              · apply sorted_phases_append 2
                · apply hcomb
                  · intro x hx
                    rw [hclear _ x hx]
                    omega
                  · intro x hx
                    rw [phase_bulkCalls _ x hx]
                    omega
                · intro x hx
                  rw [phase_dimensionCalls _ x hx]
                · apply sorted_phases_append 1
                  · intro x hx
                    rw [hclear _ x hx]
                    omega
                  · intro x hx
                    rw [phase_bulkCalls _ x hx]
                  · exact sorted_phases_const (hclear _)
                  · exact sorted_phases_const (phase_bulkCalls _)
                · exact sorted_phases_const (phase_dimensionCalls _)
              · exact sorted_phases_const phase_perCellCalls
            · exact sorted_phases_const (phase_cfCalls _)
          · exact sorted_phases_const (phase_mergeCalls _)
  · cases cells with
    | nil => exact fun h => absurd rfl h
    | cons c0 rest =>
        simp only [commitCalls]
        split
        · exact fun h => absurd rfl h
        · intro _
          exact ⟨_, rfl⟩

/-- Witness for C8 at the concrete two-cell commit. -/
theorem C8_witness :
    commitCalls [c8a, c8b] ≠ [] ∧
    (((commitCalls [c8a, c8b]).map phaseOf).Sorted (· ≤ ·) ∧
      ∃ r, (commitCalls [c8a, c8b]).head? = some (.clear r)) := by
  have hne : commitCalls [c8a, c8b] ≠ [] := by
    intro h
    exact absurd (congrArg List.length h) (by decide)
  exact ⟨hne, (C8_commit_call_ordering [c8a, c8b]).1,
    (C8_commit_call_ordering [c8a, c8b]).2 hne⟩

/-! ## Claim C3 — conditional-format rule preservation -/

/-- C3 counterexample: committing a render that collected one rule calls
`setConditionalFormatRules` with only the collected rule, so a rule
present on the sheet before the render is gone afterwards instead of
being appended to. -/
theorem C3_counterexample :
    rulesAfter [preRule] (commitCalls [c3cell]) = [ruleA] ∧
    preRule ∉ rulesAfter [preRule] (commitCalls [c3cell]) := by
  decide

/-- C3 as amended: for every commit whose resolved cells collect at
least one conditional-format rule, the engine issues exactly one
`setConditionalFormatRules` call, and since that call replaces the
surface's rule list, the rules on the surface afterwards are exactly the
collected ones — pre-existing rules are not preserved. -/
theorem C3_rules_installed_once_replacing (cells : List RCell) (pre : List CFRule)
    (hspan : ∀ c ∈ cells, 1 ≤ c.props.rowSpan ∧ 1 ≤ c.props.colSpan)
    (hne : collectedRules cells ≠ []) :
    (commitCalls cells).countP isSetCFR = 1 ∧
    rulesAfter pre (commitCalls cells) = collectedRules cells := by
  cases cells with
  | nil => simp [collectedRules] at hne
  | cons c0 rest =>
      have hdims := commit_dims_pos c0 rest hspan
      have hBno : ∀ (g : GridsAcc) (x : Call), x ∈ bulkCalls g →
          isSetCFR x = false := fun g x hx =>
        isSetCFR_false_of_phase (by rw [phase_bulkCalls g x hx]; omega)
      have hDno : ∀ (g : GridsAcc) (x : Call), x ∈ dimensionCalls g →
          isSetCFR x = false := fun g x hx =>
        isSetCFR_false_of_phase (by rw [phase_dimensionCalls g x hx]; omega)
      have hPno : ∀ {mr mc nr nc rot bor} (x : Call),
          x ∈ perCellCalls mr mc nr nc rot bor → isSetCFR x = false :=
        fun x hx =>
          isSetCFR_false_of_phase (by rw [phase_perCellCalls x hx]; omega)
      have hMno : ∀ (g : GridsAcc) (x : Call), x ∈ mergeCalls g →
          isSetCFR x = false := fun g x hx =>
        isSetCFR_false_of_phase (by rw [phase_mergeCalls g x hx]; omega)
      have hclno : ∀ (r : Rect) (x : Call), x ∈ [Call.clear r] →
          isSetCFR x = false := fun r x hx =>
        isSetCFR_false_of_phase (by rw [phase_clear_mem r x hx]; omega)
      have hFcount : ∀ mr mc : Nat,
          (cfCalls (buildGrids (c0 :: rest) mr mc)).countP isSetCFR = 1 := by
        intro mr mc
        unfold cfCalls
        rw [buildGrids_cf]
        rw [if_neg (fun hc => hne (List.isEmpty_iff.mp hc))]
        rfl
      have hFrules : ∀ (st : List CFRule) (mr mc : Nat),
          rulesAfter st (cfCalls (buildGrids (c0 :: rest) mr mc)) =
            collectedRules (c0 :: rest) := by
        intro st mr mc
        unfold cfCalls
        rw [buildGrids_cf]
        rw [if_neg (fun hc => hne (List.isEmpty_iff.mp hc))]
        rfl
      constructor
      · simp only [commitCalls]
        split
        · rename_i hg
          exact absurd hg hdims
        · rw [List.countP_append, List.countP_append, List.countP_append,
             List.countP_append, List.countP_append]
          rw [countP_zero_of_false (hclno _), countP_zero_of_false (hBno _),
             countP_zero_of_false (hDno _),
             countP_zero_of_false (fun x hx => hPno x hx),
             countP_zero_of_false (hMno _), hFcount]
      · simp only [commitCalls]
        split
        · rename_i hg
          exact absurd hg hdims
        · rw [rulesAfter_append, rulesAfter_append, rulesAfter_append,
             rulesAfter_append, rulesAfter_append]
          rw [rulesAfter_no (hclno _), rulesAfter_no (hBno _),
             rulesAfter_no (hDno _), rulesAfter_no (fun x hx => hPno x hx),
             hFrules, rulesAfter_no (hMno _)]

/-- Witness for C3 at the concrete one-dropdown commit. -/
theorem C3_witness :
    (∀ c ∈ [c3cell], 1 ≤ c.props.rowSpan ∧ 1 ≤ c.props.colSpan) ∧
    collectedRules [c3cell] ≠ [] ∧
    ((commitCalls [c3cell]).countP isSetCFR = 1 ∧
      rulesAfter [preRule] (commitCalls [c3cell]) = collectedRules [c3cell]) :=
  ⟨by decide, by decide,
    C3_rules_installed_once_replacing [c3cell] [preRule] (by decide) (by decide)⟩

/-! ## Claim C7 — forward-only placement -/

/-- C7 counterexample: within a single HStack, the first direct child's
cells and the third direct child's cell both cover column 2, so the
children's column intervals overlap (and are not strictly forward). -/
theorem C7_counterexample :
    ∃ a ∈ (groupsH c7children 1 1 defaultStyle [])[0]?.getD [],
      ∃ b ∈ (groupsH c7children 1 1 defaultStyle [])[2]?.getD [],
        coversColumn a 2 ∧ coversColumn b 2 := by
  decide

/-- C7 as amended: within a single HStack all of whose direct child
subtrees contain no empty container, every column covered by an earlier
direct child's cells is strictly left of every column covered by a later
direct child's cells — the column intervals are non-decreasing in child
order and pairwise non-overlapping; symmetrically for the row intervals
of a VStack's direct children.  (The counterexample shows an empty
container among the children breaks this.) -/
theorem C7_forward_only_placement (ts : List LNode) (h : goodListB ts = true)
    (row col : Nat) (sty : StyleV) (m : Occ) :
    (∀ (i j : Nat), i < j →
      ∀ a ∈ (groupsH ts row col sty m)[i]?.getD [],
      ∀ b ∈ (groupsH ts row col sty m)[j]?.getD [],
      ∀ k k', coversColumn a k → coversColumn b k' → k < k') ∧
    (∀ (i j : Nat), i < j →
      ∀ a ∈ (groupsV ts row col sty m)[i]?.getD [],
      ∀ b ∈ (groupsV ts row col sty m)[j]?.getD [],
      ∀ k k', coversRow a k → coversRow b k' → k < k') :=
  ⟨fun i j hij => groupsH_ordered ts h row col sty m i j hij,
   fun i j hij => groupsV_ordered ts h row col sty m i j hij⟩

/-- Witness for C7 at a concrete two-leaf child list. -/
theorem C7_witness :
    goodListB [pl 1 2, pl 1 1] = true ∧
    ((∀ (i j : Nat), i < j →
      ∀ a ∈ (groupsH [pl 1 2, pl 1 1] 1 1 defaultStyle [])[i]?.getD [],
      ∀ b ∈ (groupsH [pl 1 2, pl 1 1] 1 1 defaultStyle [])[j]?.getD [],
      ∀ k k', coversColumn a k → coversColumn b k' → k < k') ∧
    (∀ (i j : Nat), i < j →
      ∀ a ∈ (groupsV [pl 1 2, pl 1 1] 1 1 defaultStyle [])[i]?.getD [],
      ∀ b ∈ (groupsV [pl 1 2, pl 1 1] 1 1 defaultStyle [])[j]?.getD [],
      ∀ k k', coversRow a k → coversRow b k' → k < k')) :=
  ⟨by decide, C7_forward_only_placement [pl 1 2, pl 1 1] (by decide) 1 1 defaultStyle []⟩

end ReaSheet
